import Mathlib

/-!
Verification of the solid-hook-form form-state engine against its
natural-language specification.

The development shallowly embeds the parts of the code the claims are
about: the path accessor (`get`/`set`/`unset`), the field-array ordering
utilities and their use in `createFieldArray`, the subscription helper
`createSubscribe`, the error slice of the form control
(`setError`/`clearErrors`/`handleSubmit`), and the `Form` component's
submit path.  JSON-like runtime values are modelled by the inductive
type `Val`; field paths are modelled, as the spec's design notes ask,
as parsed sequences of segments (mapping key or sequence index).

Several leaf modules (`utils/get`, `utils/set`, `utils/unset`, the array
ordering utilities under `utils/`, `utils/createSubject`,
`logic/generateId` and `logic/createFormControl`) are imported by the
sources in the snapshot but their own files are absent from it; each
such definition below is marked `Modelled from the spec:` and follows
the spec's contract for the missing module, while everything whose
source is present (`createFieldArray.ts`, `createSubscribe.ts`,
`form.tsx`) is translated from that source.
-/

namespace SolidHookForm

/-- A JSON-like runtime value: the value trees the form engine stores.
`null` models the JavaScript `undefined`/`null` (the absent value). -/
inductive Val where
  | null : Val
  | str : String → Val
  | num : Int → Val
  | boolean : Bool → Val
  | obj : List (String × Val) → Val
  | arr : List Val → Val
deriving Repr

/-- JavaScript truthiness on `Val`: `falsy v` models `!v`.  The falsy
values are `undefined`/`null`, the empty string, the number `0` and
`false`. -/
def falsy : Val → Bool
  | Val.null => true
  | Val.str s => s = ""
  | Val.num n => n = 0
  | Val.boolean b => !b
  | _ => false

/-- A parsed path segment: a mapping key or a sequence index
(spec §3 "Field Path", §9 "represent paths as a validated, parsed sequence
of segments"). -/
inductive Seg where
  | key : String → Seg
  | idx : Nat → Seg
deriving Repr, DecidableEq

/-- Look a key up in an object's field list (first binding wins). -/
def lookupKey (fs : List (String × Val)) (k : String) : Option Val :=
  match fs with
  | [] => none
  | (k', v) :: rest => if k' = k then some v else lookupKey rest k

/-- Read one segment out of a value: a key out of a mapping, an index out
of a sequence; anything else is absent. -/
def getSeg : Val → Seg → Option Val
  | Val.obj fs, Seg.key k => lookupKey fs k
  | Val.arr es, Seg.idx i => es[i]?
  | _, _ => none

/-- Modelled from the spec: `utils/get` is imported by `createFieldArray.ts`
and `form.tsx` but its file is not in the repository snapshot.  Spec §4.1:
"`get(tree, path, default?)` returns the value at path or `default` if any
intermediate segment is absent (never fails, never throws on missing
paths)."  `getPath` resolves the path; `some v` means the path is present
and holds `v`. -/
def getPath (t : Val) : List Seg → Option Val
  | [] => some t
  | s :: rest =>
    match getSeg t s with
    | some v => getPath v rest
    | none => none

/-- Reading `get` with a default, per spec §4.1: the value at the path, or the
default when some segment is absent. -/
def get (t : Val) (p : List Seg) (dflt : Val) : Val :=
  (getPath t p).getD dflt

/-- Write a key into an object's field list, replacing an existing binding
or appending a new one. -/
def setKey (fs : List (String × Val)) (k : String) (v : Val) : List (String × Val) :=
  match fs with
  | [] => [(k, v)]
  | (k', v') :: rest =>
    if k' = k then (k, v) :: rest else (k', v') :: setKey rest k v

/-- Write an index into a sequence, padding with `null` (JavaScript array
holes) when the index is past the end. -/
def setIdx (es : List Val) (i : Nat) (v : Val) : List Val :=
  if i < es.length then es.set i v
  else es ++ List.replicate (i - es.length) Val.null ++ [v]

/-- Write one segment into a value.  A key segment needs a mapping and an
index segment needs a sequence; a value of the wrong shape is replaced by
a fresh container of the right kind (spec §4.1 edge case: "array-index
segments must create sequences, not mappings, at that depth"). -/
def setSeg : Val → Seg → Val → Val
  | Val.obj fs, Seg.key k, v => Val.obj (setKey fs k v)
  | Val.arr es, Seg.idx i, v => Val.arr (setIdx es i v)
  | _, Seg.key k, v => Val.obj (setKey [] k v)
  | _, Seg.idx i, v => Val.arr (setIdx [] i v)

/-- The intermediate container `set` descends into: the existing child when
present, otherwise a fresh mapping or sequence chosen by the kind of the
next segment (spec §4.1: "array-index segments must create sequences, not
mappings, at that depth"). -/
def childInit (existing : Option Val) (next : Seg) : Val :=
  match existing with
  | some c => c
  | none =>
    match next with
    | Seg.key _ => Val.obj []
    | Seg.idx _ => Val.arr []

/-- Modelled from the spec: `utils/set` is imported by `createFieldArray.ts`
but its file is not in the repository snapshot.  Spec §4.1: "`set(tree,
path, value)` creates intermediate mappings/sequences as needed … and is a
no-op only if `path` is empty."  Descending through an existing child
keeps it; an absent child is built by `childInit` and a wrongly-shaped one
is rebuilt by `setSeg`. -/
def set (t : Val) : List Seg → Val → Val
  | [], _ => t
  | [s], v => setSeg t s v
  | s :: s' :: rest, v => setSeg t s (set (childInit (getSeg t s) s') (s' :: rest) v)

/-- Delete a key from an object's field list. -/
def removeKey (fs : List (String × Val)) (k : String) : List (String × Val) :=
  match fs with
  | [] => []
  | (k', v') :: rest => if k' = k then rest else (k', v') :: removeKey rest k

/-- Delete one segment from a value: a JavaScript `delete` on an array
index leaves a hole, modelled by writing `null`. -/
def removeSeg : Val → Seg → Val
  | Val.obj fs, Seg.key k => Val.obj (removeKey fs k)
  | Val.arr es, Seg.idx i => Val.arr (es.set i Val.null)
  | t, _ => t

/-- Whether a value is the absent value `null`. -/
def isNullVal : Val → Bool
  | Val.null => true
  | _ => false

/-- Whether a container is empty: a mapping with no bindings, or a
sequence all of whose slots are holes. -/
def isEmptyContainer : Val → Bool
  | Val.obj fs => fs.isEmpty
  | Val.arr es => es.all isNullVal
  | _ => false

/-- Modelled from the spec: `utils/unset` is imported by
`createFieldArray.ts` but its file is not in the repository snapshot.
Spec §4.1: "`unset(tree, path)` removes the leaf and prunes now-empty
ancestor containers." -/
def unset (t : Val) : List Seg → Val
  | [] => t
  | [s] => removeSeg t s
  | s :: s' :: rest =>
    match getSeg t s with
    | none => t
    | some c =>
      let c' := unset c (s' :: rest)
      if isEmptyContainer c' then removeSeg t s else setSeg t s c'

/-! ### Field-array ordering utilities

The files `utils/append`, `utils/prepend`, `utils/insert`, `utils/remove`,
`utils/swap`, `utils/move` and `utils/update` are imported by
`createFieldArray.ts` but are not in the repository snapshot; the
definitions below are modelled from spec §4.3, with the effect signatures
(whether a call returns a new sequence or rewrites its argument in place)
taken from how `createFieldArray.ts` uses each call. -/

/-- Modelled from the spec: `appendAt` (spec §4.3 `append`) adds the new
entries at the end. -/
def appendAt (data new : List α) : List α := data ++ new

/-- Modelled from the spec: `prependAt` (spec §4.3 `prepend`) adds the new
entries at the start. -/
def prependAt (data new : List α) : List α := new ++ data

/-- Modelled from the spec: `insertAt` (spec §4.3 `insert`) splices at the
index, clamped to `[0, length]`. -/
def insertAt (data : List α) (i : Nat) (new : List α) : List α :=
  data.take i ++ new ++ data.drop i

/-- Remove the positions listed in `idxs` from a list whose first element
sits at position `n`; duplicate indices collapse and order is preserved
(spec §4.3 `remove`). -/
def removeIdxAux (idxs : List Nat) : Nat → List α → List α
  | _, [] => []
  | n, x :: xs =>
    if n ∈ idxs then removeIdxAux idxs (n + 1) xs
    else x :: removeIdxAux idxs (n + 1) xs

/-- Modelled from the spec: `removeArrayAt` (spec §4.3 `remove`): no index
clears the whole sequence; an index list removes exactly those positions. -/
def removeArrayAt (data : List α) : Option (List Nat) → List α
  | none => []
  | some idxs => removeIdxAux idxs 0 data

/-- Modelled from the spec: `swapArrayAt` (spec §4.3 `swap`) exchanges
exactly two positions; indices outside `[0, length)` are a no-op. -/
def swapArrayAt (l : List α) (a b : Nat) : List α :=
  if h : a < l.length ∧ b < l.length then
    (l.set a (l.get ⟨b, h.2⟩)).set b (l.get ⟨a, h.1⟩)
  else l

/-- Modelled from the spec: `moveArrayAt` (spec §4.3 `move`) repositions a
single element preserving all others' relative order; indices outside
`[0, length)` are a no-op. -/
def moveArrayAt (l : List α) (a b : Nat) : List α :=
  if h : a < l.length ∧ b < l.length then
    (l.eraseIdx a).insertIdx b (l.get ⟨a, h.1⟩)
  else l

/-- Modelled from the spec: `updateAt` (spec §4.3 `update`) replaces the
entry at the index. -/
def updateAt (l : List α) (i : Nat) (v : α) : List α := l.set i v

/-! ### Effect signatures of the utility calls

`createFieldArray.ts` calls `appendAt`, `prependAt`, `insertAt` and
`removeArrayAt` for their return value (the result is assigned and the
new sequence committed through `_updateFieldArray` with `shouldSetValues`
left at its default), while `swapArrayAt` and `moveArrayAt` are called in
statement position: their result is discarded, the argument array is used
afterwards as the updated sequence, and `_updateFieldArray` is passed
`shouldSetValues = false` because the value tree was already rewritten in
place (src/createFieldArray.ts lines 226-260).  A `UtilCall` records both
observable facets of one such call. -/

/-- The observable outcome of calling an ordering utility on an array
object: `ret` is the returned sequence (`none` models a `void` return),
`arg` is the content of the argument array after the call. -/
structure UtilCall (α : Type) where
  ret : Option (List α)
  arg : List α
deriving Repr

/-- The call of `appendAt` as made at src/createFieldArray.ts line 154: the result
is assigned; the argument array is left as it was. -/
def appendAtCall (data new : List α) : UtilCall α :=
  ⟨some (appendAt data new), data⟩

/-- The call of `prependAt` as made at src/createFieldArray.ts line 178: the result
is assigned; the argument array is left as it was. -/
def prependAtCall (data new : List α) : UtilCall α :=
  ⟨some (prependAt data new), data⟩

/-- The call of `insertAt` as made at src/createFieldArray.ts line 211: the result
is assigned; the argument array is left as it was. -/
def insertAtCall (data : List α) (i : Nat) (new : List α) : UtilCall α :=
  ⟨some (insertAt data i new), data⟩

/-- The call of `removeArrayAt` as made at src/createFieldArray.ts line 194: the
result is assigned; the argument array is left as it was. -/
def removeArrayAtCall (data : List α) (which : Option (List Nat)) : UtilCall α :=
  ⟨some (removeArrayAt data which), data⟩

/-- The call of `swapArrayAt` as made at src/createFieldArray.ts line 228: the call
is in statement position (nothing returned is used) and the argument array
itself is rewritten to the swapped sequence, which the caller then commits
with `shouldSetValues = false`. -/
def swapArrayAtCall (data : List α) (a b : Nat) : UtilCall α :=
  ⟨none, swapArrayAt data a b⟩

/-- The call of `moveArrayAt` as made at src/createFieldArray.ts line 246: the call
is in statement position and the argument array itself is rewritten to the
moved sequence, which the caller then commits with
`shouldSetValues = false`. -/
def moveArrayAtCall (data : List α) (a b : Nat) : UtilCall α :=
  ⟨none, moveArrayAt data a b⟩

/-- The call of `updateAt` as made at src/createFieldArray.ts lines
267-273: the result is assigned and committed through `_updateFieldArray`
with `shouldSetValues = true`; the argument array is left as it was
(spec §4.3: all operations are side-effect-free on their inputs). -/
def updateAtCall (data : List α) (i : Nat) (v : α) : UtilCall α :=
  ⟨some (updateAt data i v), data⟩

/-- The replace step as made at src/createFieldArray.ts lines 292-309: no
ordering utility transforms the previous sequence at all — the committed
sequence is built from the (cloned) payload alone, passed through an
identity operation, and the previous sequence object is left as it was. -/
def replaceCall (data payload : List α) : UtilCall α :=
  ⟨some payload, data⟩

/-! ### The field-array state of `createFieldArray` -/

/-- Modelled from the spec: `logic/generateId` is imported by
`createFieldArray.ts` but its file is not in the repository snapshot; the
spec (§3) only requires "a generated opaque unique key".  Freshness is
modelled by a counter threaded through the field-array state. -/
def genId (n : Nat) : String := "id-" ++ toString n

/-- The identity keys for `n` freshly appended entries, one `generateId`
call per entry starting at counter value `c`. -/
def genIds (c n : Nat) : List String :=
  (List.range n).map (fun j => genId (c + j))

/-- The state `createFieldArray` maintains for one field array: the value
sequence (the `fields` signal), the parallel identity-key sequence
(`ids`), and the fresh-key counter standing for the `generateId`
source. -/
structure FieldArrayState where
  vals : List Val
  ids : List String
  counter : Nat
deriving Repr

/-- One field-array mutation of `createFieldArray`. -/
inductive FAOp where
  | append (new : List Val)
  | prepend (new : List Val)
  | insert (i : Nat) (new : List Val)
  | remove (which : Option (List Nat))
  | swap (a b : Nat)
  | move (a b : Nat)
  | update (i : Nat) (v : Val)
  | replace (new : List Val)

/-- The field-array operations of `createFieldArray.ts` (lines 147-309):
each applies its ordering transform to the value sequence and mirrors it
on the identity sequence exactly as the source does — `append`/`prepend`/
`insert` splice freshly generated keys at the same place, `remove`/`swap`/
`move` apply the identical transform to both sequences, `update` rebuilds
the key sequence by `[...updated].map((item, i) => !item || i === index ?
generateId() : ids.current[i])`, and `replace` regenerates every key. -/
def applyFAOp : FAOp → FieldArrayState → FieldArrayState
  | FAOp.append new, s =>
    { vals := appendAt s.vals new
      ids := appendAt s.ids (genIds s.counter new.length)
      counter := s.counter + new.length }
  | FAOp.prepend new, s =>
    { vals := prependAt s.vals new
      ids := prependAt s.ids (genIds s.counter new.length)
      counter := s.counter + new.length }
  | FAOp.insert i new, s =>
    { vals := insertAt s.vals i new
      ids := insertAt s.ids i (genIds s.counter new.length)
      counter := s.counter + new.length }
  | FAOp.remove which, s =>
    { vals := removeArrayAt s.vals which
      ids := removeArrayAt s.ids which
      counter := s.counter }
  | FAOp.swap a b, s =>
    { vals := swapArrayAt s.vals a b
      ids := swapArrayAt s.ids a b
      counter := s.counter }
  | FAOp.move a b, s =>
    { vals := moveArrayAt s.vals a b
      ids := moveArrayAt s.ids a b
      counter := s.counter }
  | FAOp.update i v, s =>
    let vals' := updateAt s.vals i v
    { vals := vals'
      ids := vals'.mapIdx (fun j item =>
        if falsy item || j = i then genId (s.counter + j) else s.ids.getD j "")
      counter := s.counter + vals'.length }
  | FAOp.replace new, s =>
    { vals := new
      ids := genIds s.counter new.length
      counter := s.counter + new.length }

/-- The derived `fields` sequence of `createFieldArray.ts` (lines
418-425): each value entry paired with its identity key under the
configured key name, regenerating the key at read time when the identity
sequence has no entry (or a falsy one) at that index —
`{...field, [keyName]: ids.current[index] || generateId()}`. -/
def fieldsWithId (s : FieldArrayState) : List (Val × String) :=
  s.vals.mapIdx (fun i v =>
    (v, if s.ids.getD i "" = "" then genId (s.counter + i) else s.ids.getD i ""))

/-! ### The subject bus and `createSubscribe` -/

/-- The state of one subject, modelled from spec §4.2: the list of
currently-registered observers in subscription order.  Observers are
identified by number; `utils/createSubject` itself is not in the
repository snapshot. -/
def SubjectObservers := List Nat

/-- The deliveries one `next` call performs: the value is pushed
synchronously, in subscription order, to every currently-registered
observer (spec §4.2). -/
def publishDeliveries (observers : List Nat) : List Nat := observers

/-- What one run of the `createSubscribe` effect body produced: the
subject's observers afterwards and the subscription it may have created. -/
structure SubscribeResult where
  observers : List Nat
  subscription : Option Nat
deriving Repr, DecidableEq

/-- The effect body of `createSubscribe` (src/createSubscribe.ts lines
15-21): `subscription = !props.disabled && props.subject &&
props.subject.subscribe({ next: props.next })` — the observer is added to
the subject only when `disabled` is not set, and the created subscription
is kept for cleanup. -/
def createSubscribeEffect (disabled : Bool) (observers : List Nat) (obs : Nat) :
    SubscribeResult :=
  if disabled then ⟨observers, none⟩
  else ⟨observers ++ [obs], some obs⟩

/-- Removing a subscription from a subject (the disposer of spec §4.2). -/
def unsubscribeObs (observers : List Nat) (obs : Nat) : List Nat :=
  observers.filter (fun o => o ≠ obs)

/-- The cleanup of `createSubscribe` (src/createSubscribe.ts lines 23-25):
`subscription && subscription.unsubscribe()` — unsubscribes when and only
when a subscription was created. -/
def subscribeCleanup (r : SubscribeResult) : List Nat :=
  match r.subscription with
  | some obs => unsubscribeObs r.observers obs
  | none => r.observers

/-! ### The form control's error slice and submission -/

/-- A per-field validation error: `type` and optional `message`
(spec §7). -/
structure FieldError where
  type : String
  message : String
deriving Repr, DecidableEq

/-- The error object stored in the errors slice for a `FieldError`. -/
def errVal (e : FieldError) : Val :=
  Val.obj [("type", Val.str e.type), ("message", Val.str e.message)]

/-- A registered field: its path and its validation rule.  Only the
`required` built-in rule is modelled, which is all the claims need. -/
structure FieldReg where
  name : List Seg
  required : Bool

/-- Modelled from the spec: the form-control state slice the claims about
`logic/createFormControl` (not in the repository snapshot) need — the
registered fields, the value tree, the errors slice, and the submission
flags of the Form State Snapshot (spec §3, §4.5). -/
structure ControlState where
  fields : List FieldReg
  values : Val
  errors : Val
  submitCount : Nat
  isSubmitted : Bool
  isSubmitting : Bool
  isSubmitSuccessful : Bool

/-- Modelled from the spec: `register(path, rules)` inserts a field
descriptor (spec §4.5). -/
def register (s : ControlState) (name : List Seg) (required : Bool) : ControlState :=
  { s with fields := s.fields ++ [⟨name, required⟩] }

/-- Modelled from the spec: `setError(path, error)` records the error in
the errors slice at the path (spec §8 scenario). -/
def setError (s : ControlState) (name : List Seg) (e : FieldError) : ControlState :=
  { s with errors := set s.errors name (errVal e) }

/-- Modelled from the spec: `clearErrors(path?)` removes the entry at the
path, or empties the whole errors slice when no path is given (spec §8
scenario and the clearErrors tests in the snapshot). -/
def clearErrors (s : ControlState) : Option (List Seg) → ControlState
  | some name => { s with errors := unset s.errors name }
  | none => { s with errors := Val.obj [] }

/-- The built-in `required` rule on one field against the current value
tree (spec §4.4): fails when the field's current value is empty/falsy. -/
def validateFieldRule (values : Val) (f : FieldReg) : Option FieldError :=
  if f.required && falsy (get values f.name Val.null) then
    some ⟨"required", ""⟩
  else none

/-- Modelled from the spec: the full validation pass `handleSubmit` runs
(spec §4.5) — every registered field is validated, a failing field's error
is written into the errors slice and a passing field's entry is removed;
error entries at paths no registered field covers (manual `setError`
entries) are untouched. -/
def runValidation (s : ControlState) : Val :=
  s.fields.foldl
    (fun e f =>
      match validateFieldRule s.values f with
      | some err => set e f.name (errVal err)
      | none => unset e f.name)
    s.errors

/-- Whether the errors slice is the empty mapping. -/
def isEmptyObjVal : Val → Bool
  | Val.obj [] => true
  | _ => false

/-- What one invocation of the function returned by `handleSubmit`
observably did. -/
structure SubmitOutcome where
  calledOnValid : Bool
  calledOnInvalid : Bool
  state : ControlState

/-- Modelled from the spec: `handleSubmit(onValid, onInvalid?)`
(spec §4.5) — "runs a full validation pass; on success invokes
`onValid(values, event)`; on failure invokes `onInvalid(errors, event)` if
provided and always increments `submitCount`, sets `isSubmitted`, and
resets `isSubmitting`."  `calledOnInvalid` records whether `onInvalid`
would be invoked were it provided. -/
def handleSubmitRun (s : ControlState) : SubmitOutcome :=
  let errs := runValidation s
  let ok := isEmptyObjVal errs
  { calledOnValid := ok
    calledOnInvalid := !ok
    state := { s with
      errors := errs
      submitCount := s.submitCount + 1
      isSubmitted := true
      isSubmitting := false
      isSubmitSuccessful := ok } }

/-- The fresh form-control state: no fields, empty value tree, empty
errors slice, all submission flags down. -/
def initialControl : ControlState :=
  { fields := [], values := Val.obj [], errors := Val.obj []
    submitCount := 0, isSubmitted := false, isSubmitting := false
    isSubmitSuccessful := false }

/-- The state of the clearErrors submission test (part_004 lines 203-220):
`data` registered without rules, then `setError('whatever', { type:
'server' })`. -/
def customErrorScenario : ControlState :=
  setError (register initialControl [Seg.key "data"] false)
    [Seg.key "whatever"] ⟨"server", ""⟩

/-! ### The `Form` component's submit path -/

/-- The props of the `Form` component that steer its submit path
(src/form.tsx): whether an `action` URL is configured, the optional
`validateStatus` acceptance check, and whether a `control` prop was
passed explicitly (as opposed to the control coming from context). -/
structure FormProps where
  hasAction : Bool
  validateStatus : Option (Nat → Bool)
  hasControlProp : Bool

/-- What the `fetch` inside the submit path did: a response with a status,
or a thrown error. -/
inductive FetchOutcome where
  | response (status : Nat)
  | threw

/-- The observable effects of one `submit` run of the `Form` component. -/
structure SubmitEffects where
  hasError : Bool
  errType : String
  calledOnError : Bool
  calledOnSuccess : Bool
  pushedSubmitFailState : Bool
  rootServerErrorType : Option String

/-- The response-status acceptance check of src/form.tsx lines 85-90:
the configured `validateStatus` when present, otherwise
`status < 200 || status >= 300`. -/
def statusFails (props : FormProps) (status : Nat) : Bool :=
  match props.validateStatus with
  | some f => !(f status)
  | none => decide (status < 200) || decide (300 ≤ status)

/-- The `submit` function of the `Form` component (src/form.tsx lines
41-112): the fetch runs only inside `handleSubmit`'s valid branch when an
`action` is configured; a failing status or a thrown fetch sets
`hasError` (and `type` to the stringified status when a response is
available); after the run, the `root.server` error entry and the
`isSubmitSuccessful: false` push happen only under
`if (hasError && props.control)` — that is, only when a `control` prop
was passed explicitly (line 104). -/
def formSubmit (props : FormProps) (validationOk : Bool) (outcome : FetchOutcome) :
    SubmitEffects :=
  if validationOk && props.hasAction then
    match outcome with
    | FetchOutcome.response status =>
      if statusFails props status then
        { hasError := true
          errType := toString status
          calledOnError := true
          calledOnSuccess := false
          pushedSubmitFailState := props.hasControlProp
          rootServerErrorType :=
            if props.hasControlProp then some (toString status) else none }
      else
        { hasError := false, errType := "", calledOnError := false
          calledOnSuccess := true, pushedSubmitFailState := false
          rootServerErrorType := none }
    | FetchOutcome.threw =>
      { hasError := true
        errType := ""
        calledOnError := true
        calledOnSuccess := false
        pushedSubmitFailState := props.hasControlProp
        rootServerErrorType := if props.hasControlProp then some "" else none }
  else
    { hasError := false, errType := "", calledOnError := false
      calledOnSuccess := false, pushedSubmitFailState := false
      rootServerErrorType := none }

/-! ## Path-accessor lemmas -/

theorem lookupKey_setKey (fs : List (String × Val)) (k : String) (v : Val) :
    lookupKey (setKey fs k v) k = some v := by
  induction fs with
  | nil => simp [setKey, lookupKey]
  | cons hd tl ih =>
    obtain ⟨k', v'⟩ := hd
    by_cases h : k' = k
    · simp [setKey, h, lookupKey]
    · simp [setKey, h, lookupKey, ih]

theorem getElem?_setIdx (es : List Val) (i : Nat) (v : Val) :
    (setIdx es i v)[i]? = some v := by
  unfold setIdx
  by_cases h : i < es.length
  · simp [h, List.getElem?_set_self h]
  · simp only [h, if_false]
    have hle : es.length ≤ i := Nat.le_of_not_lt h
    rw [List.append_assoc, List.getElem?_append_right hle]
    rw [List.getElem?_append_right (by simp)]
    simp

theorem getSeg_setSeg (t : Val) (s : Seg) (v : Val) :
    getSeg (setSeg t s v) s = some v := by
  cases t <;> cases s <;>
    simp [setSeg, getSeg, lookupKey_setKey, getElem?_setIdx]

theorem getPath_set (p : List Seg) (t v : Val) (hp : p ≠ []) :
    getPath (set t p v) p = some v := by
  induction p generalizing t with
  | nil => exact absurd rfl hp
  | cons s rest ih =>
    cases rest with
    | nil => simp [set, getPath, getSeg_setSeg]
    | cons s' rest' =>
      show getPath (set t (s :: s' :: rest') v) (s :: s' :: rest') = some v
      have hset : set t (s :: s' :: rest') v =
          setSeg t s (set (childInit (getSeg t s) s') (s' :: rest') v) := rfl
      rw [hset, getPath, getSeg_setSeg]
      exact ih _ (by simp)

/-- C2: for every value tree, every non-empty path and every value,
reading with the path accessor after writing returns the written value —
`get(set(T, p, v), p) = v` for any default, including when intermediate
mapping or sequence segments of the path were absent before the write. -/
theorem get_after_set (t v dflt : Val) (p : List Seg) (hp : p ≠ []) :
    get (set t p v) p dflt = v := by
  rw [get, getPath_set p t v hp]
  rfl

/-- C2 witness: writing `7` at the initially absent path `a.2.b` of the
empty mapping and reading it back returns `7`. -/
theorem get_after_set_witness :
    ([Seg.key "a", Seg.idx 2, Seg.key "b"] : List Seg) ≠ [] ∧
      get (set (Val.obj []) [Seg.key "a", Seg.idx 2, Seg.key "b"] (Val.num 7))
        [Seg.key "a", Seg.idx 2, Seg.key "b"] Val.null = Val.num 7 :=
  ⟨by simp, get_after_set (Val.obj []) (Val.num 7) Val.null _ (by simp)⟩

/-! ## Ordering-utility lemmas -/

theorem length_insertAt (l new : List α) (i : Nat) :
    (insertAt l i new).length = l.length + new.length := by
  simp [insertAt]
  omega

theorem length_removeIdxAux (idxs : List Nat) :
    ∀ (n : Nat) (l₁ : List α) (l₂ : List β), l₁.length = l₂.length →
      (removeIdxAux idxs n l₁).length = (removeIdxAux idxs n l₂).length
  | _, [], [], _ => rfl
  | _, [], _ :: _, h => by simp at h
  | _, _ :: _, [], h => by simp at h
  | n, x :: xs, y :: ys, h => by
    have ih := length_removeIdxAux idxs (n + 1) xs ys (by simpa using h)
    simp only [removeIdxAux]
    split_ifs <;> simp [ih]

theorem length_swapArrayAt (l : List α) (a b : Nat) :
    (swapArrayAt l a b).length = l.length := by
  unfold swapArrayAt
  split <;> simp

theorem length_moveArrayAt (l : List α) (a b : Nat) :
    (moveArrayAt l a b).length = l.length := by
  unfold moveArrayAt
  split
  · rename_i h
    rw [List.length_insertIdx _ _ (by rw [List.length_eraseIdx]; simp [h.1]; omega),
      List.length_eraseIdx]
    simp [h.1]
    omega
  · rfl

theorem getElem?_swapArrayAt (l : List α) (a b j : Nat)
    (ha : a < l.length) (hb : b < l.length) :
    (swapArrayAt l a b)[j]? =
      if j = b then l[a]? else if j = a then l[b]? else l[j]? := by
  unfold swapArrayAt
  rw [dif_pos ⟨ha, hb⟩]
  by_cases hjb : j = b
  · subst hjb
    rw [List.getElem?_set_self (by simpa using hb)]
    simp [List.getElem?_eq_getElem ha]
  · rw [List.getElem?_set_ne (fun h => hjb h.symm)]
    by_cases hja : j = a
    · subst hja
      rw [List.getElem?_set_self ha]
      simp [hjb, List.getElem?_eq_getElem hb]
    · rw [List.getElem?_set_ne (fun h => hja h.symm)]
      simp [hjb, hja]

theorem swapArrayAt_swapArrayAt (l : List α) (a b : Nat)
    (ha : a < l.length) (hb : b < l.length) :
    swapArrayAt (swapArrayAt l a b) a b = l := by
  have hlen := length_swapArrayAt l a b
  apply List.ext_getElem?
  intro j
  rw [getElem?_swapArrayAt _ a b j (by rw [hlen]; exact ha) (by rw [hlen]; exact hb),
    getElem?_swapArrayAt l a b a ha hb, getElem?_swapArrayAt l a b b ha hb,
    getElem?_swapArrayAt l a b j ha hb]
  by_cases h1 : j = b <;> by_cases h2 : j = a <;> by_cases h3 : a = b <;>
    simp_all

theorem perm_insertIdx (x : α) :
    ∀ (n : Nat) (l : List α), n ≤ l.length → (l.insertIdx n x).Perm (x :: l)
  | 0, l, _ => by simp [List.insertIdx_zero]
  | n + 1, [], h => by simp at h
  | n + 1, y :: ys, h => by
    rw [List.insertIdx_succ_cons]
    exact ((perm_insertIdx x n ys (by simpa using h)).cons y).trans
      (List.Perm.swap x y ys)

theorem perm_cons_eraseIdx :
    ∀ (l : List α) (a : Nat) (h : a < l.length),
      l.Perm (l.get ⟨a, h⟩ :: l.eraseIdx a)
  | y :: ys, 0, _ => by simp [List.eraseIdx]
  | y :: ys, n + 1, h => by
    show (y :: ys).Perm (ys.get ⟨n, by simpa using h⟩ :: y :: ys.eraseIdx n)
    exact ((perm_cons_eraseIdx ys n (by simpa using h)).cons y).trans
      (List.Perm.swap _ y _)

theorem perm_moveArrayAt (l : List α) (a b : Nat) :
    (moveArrayAt l a b).Perm l := by
  unfold moveArrayAt
  split
  · rename_i h
    refine (perm_insertIdx _ b _ ?_).trans (perm_cons_eraseIdx l a h.1).symm
    rw [List.length_eraseIdx]
    simp [h.1]
    omega
  · exact List.Perm.refl l

/-! ## C1: the identity sequence and the value sequence stay parallel -/

/-- C1: after any field-array operation of `createFieldArray` (append,
prepend, insert, remove, swap, move, update, replace), the identity-key
sequence and the value sequence have equal length: each operation applies
the same structural transform to both sequences before the new state is
committed. -/
theorem fieldArray_parallel_lengths (op : FAOp) (s : FieldArrayState)
    (h : s.ids.length = s.vals.length) :
    (applyFAOp op s).ids.length = (applyFAOp op s).vals.length := by
  cases op with
  | append new => simp [applyFAOp, appendAt, genIds, h]
  | prepend new => simp [applyFAOp, prependAt, genIds, h]
  | insert i new => simp [applyFAOp, length_insertAt, genIds, h]
  | remove which =>
    cases which with
    | none => simp [applyFAOp, removeArrayAt]
    | some idxs =>
      simpa [applyFAOp, removeArrayAt] using
        length_removeIdxAux idxs 0 s.ids s.vals h
  | swap a b => simp [applyFAOp, length_swapArrayAt, h]
  | move a b => simp [applyFAOp, length_moveArrayAt, h]
  | update i v => simp [applyFAOp]
  | replace new => simp [applyFAOp, genIds]

/-- C1 witness: appending one entry to a state with parallel empty
sequences leaves the two sequences of equal length. -/
theorem fieldArray_parallel_lengths_witness :
    (([] : List String).length = ([] : List Val).length) ∧
      (applyFAOp (FAOp.append [Val.num 1]) ⟨[], [], 0⟩).ids.length =
        (applyFAOp (FAOp.append [Val.num 1]) ⟨[], [], 0⟩).vals.length :=
  ⟨rfl, fieldArray_parallel_lengths (FAOp.append [Val.num 1]) ⟨[], [], 0⟩ rfl⟩

/-! ## C3: swap is self-inverse -/

/-- C3: for every field-array state and every pair of in-range indices,
applying the swap operation twice returns both the value sequence and the
parallel identity-key sequence (and therefore the whole state) to the
original. -/
theorem fieldArray_swap_self_inverse (s : FieldArrayState) (a b : Nat)
    (ha : a < s.vals.length) (hb : b < s.vals.length)
    (hlen : s.ids.length = s.vals.length) :
    applyFAOp (FAOp.swap a b) (applyFAOp (FAOp.swap a b) s) = s := by
  obtain ⟨vals, ids, counter⟩ := s
  simp only [applyFAOp, FieldArrayState.mk.injEq]
  exact ⟨swapArrayAt_swapArrayAt vals a b ha hb,
    swapArrayAt_swapArrayAt ids a b (by rw [hlen]; exact ha) (by rw [hlen]; exact hb),
    trivial⟩

/-- C3 witness: swapping positions 0 and 1 twice on a concrete two-entry
field array restores the state. -/
theorem fieldArray_swap_self_inverse_witness :
    (0 < 2 ∧ 1 < 2) ∧
      applyFAOp (FAOp.swap 0 1) (applyFAOp (FAOp.swap 0 1)
          ⟨[Val.num 1, Val.num 2], ["x", "y"], 0⟩) =
        ⟨[Val.num 1, Val.num 2], ["x", "y"], 0⟩ :=
  ⟨⟨by decide, by decide⟩,
    fieldArray_swap_self_inverse ⟨[Val.num 1, Val.num 2], ["x", "y"], 0⟩ 0 1
      (by decide) (by decide) rfl⟩

/-! ## C4: effect signatures of the ordering operations -/

/-- C4 counterexample: the claim that every ordering operation leaves its
input sequence unmodified and returns a transformed copy fails for swap
and move at the concrete input `[1, 2]`, positions 0 and 1 — the argument
array afterwards differs from the input and nothing is returned. -/
theorem swap_move_mutate_counterexample :
    (swapArrayAtCall [1, 2] 0 1).arg ≠ [1, 2] ∧
      (swapArrayAtCall [1, 2] 0 1).ret = none ∧
      (moveArrayAtCall [1, 2] 0 1).arg ≠ [1, 2] ∧
      (moveArrayAtCall [1, 2] 0 1).ret = none := by
  decide

/-- C4 amended: append, prepend, insert, remove, update and replace leave
the argument array unchanged and return the transformed sequence (update:
the sequence with the entry at the index replaced; replace: the sequence
built from the payload alone), while swap and move return nothing and
instead rewrite the argument array in place — to the sequence with
exactly the two positions exchanged (swap: position `a` holds the old `b`
entry, position `b` the old `a` entry, every other position unchanged,
length preserved) and to a permutation of the input of the same length
(move).  All operations are deterministic functions of their inputs. -/
theorem orderingOps_effect_signatures (l new : List α) (v : α) (i a b : Nat)
    (which : Option (List Nat)) (ha : a < l.length) (hb : b < l.length) :
    ((appendAtCall l new).arg = l ∧ (appendAtCall l new).ret = some (l ++ new)) ∧
    ((prependAtCall l new).arg = l ∧ (prependAtCall l new).ret = some (new ++ l)) ∧
    ((insertAtCall l i new).arg = l ∧
      (insertAtCall l i new).ret = some (l.take i ++ new ++ l.drop i)) ∧
    ((removeArrayAtCall l which).arg = l ∧
      (removeArrayAtCall l which).ret = some (removeArrayAt l which)) ∧
    ((swapArrayAtCall l a b).ret = none ∧
      ((swapArrayAtCall l a b).arg)[b]? = l[a]? ∧
      ((swapArrayAtCall l a b).arg)[a]? = l[b]? ∧
      (∀ j, j ≠ a → j ≠ b → ((swapArrayAtCall l a b).arg)[j]? = l[j]?) ∧
      (swapArrayAtCall l a b).arg.length = l.length) ∧
    ((moveArrayAtCall l a b).ret = none ∧
      (moveArrayAtCall l a b).arg.Perm l ∧
      (moveArrayAtCall l a b).arg.length = l.length) ∧
    ((updateAtCall l i v).arg = l ∧ (updateAtCall l i v).ret = some (l.set i v)) ∧
    ((replaceCall l new).arg = l ∧ (replaceCall l new).ret = some new) := by
  refine ⟨⟨rfl, rfl⟩, ⟨rfl, rfl⟩, ⟨rfl, rfl⟩, ⟨rfl, rfl⟩, ⟨rfl, ?_, ?_, ?_, ?_⟩,
    ⟨rfl, ?_, ?_⟩, ⟨rfl, rfl⟩, ⟨rfl, rfl⟩⟩
  · show (swapArrayAt l a b)[b]? = l[a]?
    rw [getElem?_swapArrayAt l a b b ha hb]
    simp
  · show (swapArrayAt l a b)[a]? = l[b]?
    rw [getElem?_swapArrayAt l a b a ha hb]
    by_cases h : a = b <;> simp [h]
  · intro j hja hjb
    show (swapArrayAt l a b)[j]? = l[j]?
    rw [getElem?_swapArrayAt l a b j ha hb]
    simp [hja, hjb]
  · exact length_swapArrayAt l a b
  · exact perm_moveArrayAt l a b
  · exact length_moveArrayAt l a b

/-- C4 amended witness: at the concrete input `[1, 2, 3]` with positions 0
and 2, the swap call leaves the argument array with the same length. -/
theorem orderingOps_effect_signatures_witness :
    (0 < 3 ∧ 2 < 3) ∧ (swapArrayAtCall [1, 2, 3] 0 2).arg.length = 3 := by
  refine ⟨⟨by decide, by decide⟩, ?_⟩
  have h := orderingOps_effect_signatures [1, 2, 3] [9] 7 1 0 2 (some [1])
    (by decide) (by decide)
  exact h.2.2.2.2.1.2.2.2.2

/-! ## C5: identity keys across update -/

theorem getD_eq_get (l : List α) (j : Nat) (d : α) (h : j < l.length) :
    l.getD j d = l[j] := by
  simp [List.getD_eq_getElem?_getD, List.getElem?_eq_getElem h]

/-- C5 counterexample: update does not leave every other position's
identity key untouched — on the state with values `[null, 1]` and keys
`["a", "b"]`, updating the in-range position 1 also regenerates the key of
position 0, because the source regenerates the key of every falsy entry
(`!item || i === index`, src/createFieldArray.ts line 275). -/
theorem update_keeps_other_keys_counterexample :
    (1 < ([Val.null, Val.num 1] : List Val).length) ∧
      ((applyFAOp (FAOp.update 1 (Val.num 2))
          ⟨[Val.null, Val.num 1], ["a", "b"], 5⟩).ids)[0]? ≠ some "a" := by
  refine ⟨by decide, ?_⟩
  decide

/-- C5 amended: for every field array and every in-range index `i`,
`update(i, value)` assigns a freshly generated identity key at position
`i`, and every other in-range position whose (unchanged) value entry is
not falsy keeps exactly the identity key it had; positions holding falsy
entries also receive fresh keys. -/
theorem update_identity_keys (s : FieldArrayState) (i : Nat) (v : Val)
    (hi : i < s.vals.length) (hlen : s.ids.length = s.vals.length) :
    ((applyFAOp (FAOp.update i v) s).ids)[i]? = some (genId (s.counter + i)) ∧
    ∀ j, j < s.vals.length → j ≠ i → falsy (s.vals.getD j Val.null) = false →
      ((applyFAOp (FAOp.update i v) s).ids)[j]? = s.ids[j]? := by
  simp only [applyFAOp]
  constructor
  · rw [List.getElem?_mapIdx]
    have hv : (updateAt s.vals i v)[i]? = some v := by
      rw [updateAt]
      exact List.getElem?_set_self hi
    rw [hv]
    simp
  · intro j hj hji hfalsy
    rw [List.getElem?_mapIdx]
    have hvj : (updateAt s.vals i v)[j]? = some (s.vals[j]) := by
      rw [updateAt, List.getElem?_set_ne (fun h => hji h.symm)]
      exact List.getElem?_eq_getElem hj
    rw [getD_eq_get s.vals j Val.null hj] at hfalsy
    rw [hvj]
    have hjil : j < s.ids.length := by rw [hlen]; exact hj
    simp [hfalsy, hji, getD_eq_get s.ids j "" hjil, List.getElem?_eq_getElem hjil]

/-- C5 amended witness: updating position 0 of a concrete two-entry field
array stores the designated fresh key at position 0. -/
theorem update_identity_keys_witness :
    (0 < 2) ∧
      ((applyFAOp (FAOp.update 0 (Val.num 9))
          ⟨[Val.num 1, Val.num 2], ["a", "b"], 5⟩).ids)[0]? = some (genId 5) := by
  refine ⟨by decide, ?_⟩
  exact (update_identity_keys ⟨[Val.num 1, Val.num 2], ["a", "b"], 5⟩ 0 (Val.num 9)
    (by decide) rfl).1

/-! ## C9: every derived field carries a non-empty identity key -/

theorem genId_ne_empty (n : Nat) : genId n ≠ "" := by
  intro h
  have hlen := congrArg String.length h
  rw [genId, String.length_append] at hlen
  have h3 : ("id-" : String).length = 3 := rfl
  have h0 : ("" : String).length = 0 := rfl
  omega

/-- C9: every element of the derived fields sequence carries a non-empty
identity key: when the identity-key sequence has no entry (or a falsy one)
at an index, a fresh key is generated for that element at read time, so no
returned field lacks its key. -/
theorem fields_keys_nonempty (s : FieldArrayState) (j : Nat) (v : Val) (key : String)
    (h : (fieldsWithId s)[j]? = some (v, key)) : key ≠ "" := by
  rw [fieldsWithId, List.getElem?_mapIdx] at h
  cases hv : s.vals[j]? with
  | none => rw [hv] at h; simp at h
  | some item =>
    rw [hv] at h
    have h2 : ((item, if s.ids.getD j "" = "" then genId (s.counter + j)
        else s.ids.getD j "") : Val × String) = (v, key) := by
      simpa using h
    have hkey : (if s.ids.getD j "" = "" then genId (s.counter + j)
        else s.ids.getD j "") = key := congrArg Prod.snd h2
    by_cases hc : s.ids.getD j "" = ""
    · rw [if_pos hc] at hkey
      rw [← hkey]
      exact genId_ne_empty _
    · rw [if_neg hc] at hkey
      rw [← hkey]
      exact hc

/-- C9 witness: on a state whose identity sequence is missing the entry
for position 0, the derived field at 0 carries the freshly generated,
non-empty key. -/
theorem fields_keys_nonempty_witness :
    ((fieldsWithId ⟨[Val.num 1], [], 7⟩)[0]? = some (Val.num 1, genId 7)) ∧
      genId 7 ≠ "" := by
  refine ⟨rfl, ?_⟩
  exact fields_keys_nonempty ⟨[Val.num 1], [], 7⟩ 0 (Val.num 1) (genId 7) rfl

/-! ## C10: createSubscribe gates on the disabled flag -/

/-- C10: the `createSubscribe` effect subscribes its callback to the given
subject exactly when `disabled` is not set — when `disabled` is true no
subscription is created, the subject is untouched and the callback
receives no published value; when `disabled` is false the observer is
appended and the cleanup unsubscribes exactly the one created
subscription, restoring the subject's observer list. -/
theorem createSubscribe_disabled_gating (disabled : Bool) (observers : List Nat)
    (obs : Nat) (hfresh : obs ∉ observers) :
    (disabled = true →
      createSubscribeEffect disabled observers obs = ⟨observers, none⟩ ∧
        obs ∉ publishDeliveries (createSubscribeEffect disabled observers obs).observers) ∧
    (disabled = false →
      (createSubscribeEffect disabled observers obs).subscription = some obs ∧
        (createSubscribeEffect disabled observers obs).observers = observers ++ [obs] ∧
        subscribeCleanup (createSubscribeEffect disabled observers obs) = observers) := by
  constructor
  · intro hd
    subst hd
    refine ⟨rfl, ?_⟩
    simpa [createSubscribeEffect, publishDeliveries] using hfresh
  · intro hd
    subst hd
    refine ⟨rfl, rfl, ?_⟩
    show unsubscribeObs (observers ++ [obs]) obs = observers
    rw [unsubscribeObs, List.filter_append]
    simp
    intro a ha h
    exact hfresh (h ▸ ha)

/-- C10 witness: with the flag down, subscribing observer 5 to a subject
holding observer 3 and then cleaning up restores the subject. -/
theorem createSubscribe_disabled_gating_witness :
    (5 ∉ [3]) ∧ subscribeCleanup (createSubscribeEffect false [3] 5) = [3] :=
  ⟨by decide, ((createSubscribe_disabled_gating false [3] 5 (by decide)).2 rfl).2.2⟩

/-! ## C6: setError and clearErrors on the errors slice -/

/-- C6: on a form with an empty errors slice, after registering a path and
calling `setError` on it the errors slice holds the error at that path; a
subsequent `clearErrors` with that path removes the entry, leaving the
empty mapping, and `clearErrors` with no argument empties the whole
errors slice. -/
theorem setError_clearErrors_roundtrip (s : ControlState) (k : String)
    (e : FieldError) (h : s.errors = Val.obj []) :
    getPath (setError (register s [Seg.key k] false) [Seg.key k] e).errors
        [Seg.key k] = some (errVal e) ∧
      (clearErrors (setError (register s [Seg.key k] false) [Seg.key k] e)
        (some [Seg.key k])).errors = Val.obj [] ∧
      (clearErrors (setError (register s [Seg.key k] false) [Seg.key k] e)
        none).errors = Val.obj [] := by
  refine ⟨?_, ?_, rfl⟩
  · simp [register, setError, h, set, setSeg, setKey, getPath, getSeg, lookupKey]
  · simp [register, setError, clearErrors, h, set, setSeg, setKey, unset,
      removeSeg, removeKey]

/-- C6 witness: the spec's scenario — register `input`, set the error
`{type: test, message: message}` on it, observe the entry, then clear it
both ways. -/
theorem setError_clearErrors_roundtrip_witness :
    (initialControl.errors = Val.obj []) ∧
      (clearErrors (setError (register initialControl [Seg.key "input"] false)
        [Seg.key "input"] ⟨"test", "message"⟩) (some [Seg.key "input"])).errors
        = Val.obj [] :=
  ⟨rfl, (setError_clearErrors_roundtrip initialControl "input"
    ⟨"test", "message"⟩ rfl).2.1⟩

/-! ## C7: handleSubmit gates on the validation pass -/

theorem isEmptyObjVal_iff (e : Val) : isEmptyObjVal e = true ↔ e = Val.obj [] := by
  cases e with
  | obj fs => cases fs <;> simp [isEmptyObjVal]
  | null => simp [isEmptyObjVal]
  | str s => simp [isEmptyObjVal]
  | num n => simp [isEmptyObjVal]
  | boolean b => simp [isEmptyObjVal]
  | arr es => simp [isEmptyObjVal]

/-- C7: the function returned by `handleSubmit` invokes `onValid` exactly
when the full validation pass leaves the errors slice empty, and invokes
`onInvalid` (when provided) otherwise; in every case `submitCount` is
incremented, `isSubmitted` is set and `isSubmitting` is reset.  On the
custom-error scenario of the snapshot's test (register `data`, set a
manual error on `whatever`): the submission is prevented, and after
clearing the error a new invocation calls `onValid`. -/
theorem handleSubmit_gating :
    (∀ s : ControlState,
      ((handleSubmitRun s).calledOnValid = true ↔
        (handleSubmitRun s).state.errors = Val.obj []) ∧
      (handleSubmitRun s).calledOnInvalid = !(handleSubmitRun s).calledOnValid ∧
      (handleSubmitRun s).state.submitCount = s.submitCount + 1 ∧
      (handleSubmitRun s).state.isSubmitted = true ∧
      (handleSubmitRun s).state.isSubmitting = false) ∧
    (handleSubmitRun customErrorScenario).calledOnValid = false ∧
    (handleSubmitRun (clearErrors customErrorScenario
      (some [Seg.key "whatever"]))).calledOnValid = true := by
  refine ⟨fun s => ⟨?_, rfl, rfl, rfl, rfl⟩, ?_, ?_⟩
  · show isEmptyObjVal (runValidation s) = true ↔ runValidation s = Val.obj []
    exact isEmptyObjVal_iff (runValidation s)
  · decide
  · decide

/-! ## C8: transport failures in the Form submit path -/

/-- C8 counterexample: the claim that every observed transport failure is
recorded fails when the `Form` component's control comes from context
rather than an explicit `control` prop — on a failing 500 response the
submit run has an error but records no `root.server` entry and pushes no
state notification, because the recording is guarded by `props.control`
(src/form.tsx line 104). -/
theorem formSubmit_context_control_counterexample :
    (formSubmit ⟨true, none, false⟩ true (FetchOutcome.response 500)).hasError
        = true ∧
      (formSubmit ⟨true, none, false⟩ true
        (FetchOutcome.response 500)).rootServerErrorType = none ∧
      (formSubmit ⟨true, none, false⟩ true
        (FetchOutcome.response 500)).pushedSubmitFailState = false :=
  ⟨rfl, rfl, rfl⟩

/-- C8 amended: when a `control` prop is passed explicitly, the `Form`
submit path records every observed transport failure: the
`isSubmitSuccessful = false` push happens exactly when the run has an
error, the `root.server` entry is recorded with the run's error type
exactly when the run has an error, and for a response whose status fails
the acceptance check that type is the stringified status. -/
theorem formSubmit_records_failure (props : FormProps) (validationOk : Bool)
    (outcome : FetchOutcome) (hc : props.hasControlProp = true) :
    (formSubmit props validationOk outcome).pushedSubmitFailState =
      (formSubmit props validationOk outcome).hasError ∧
    (formSubmit props validationOk outcome).rootServerErrorType =
      (if (formSubmit props validationOk outcome).hasError then
        some (formSubmit props validationOk outcome).errType else none) ∧
    (∀ status, outcome = FetchOutcome.response status →
      (formSubmit props validationOk outcome).hasError = true →
      (formSubmit props validationOk outcome).errType = toString status) := by
  cases hb : validationOk && props.hasAction with
  | false => simp [formSubmit, hb]
  | true =>
    cases outcome with
    | threw => simp [formSubmit, hb, hc]
    | response status =>
      cases hs : statusFails props status with
      | true => simp [formSubmit, hb, hs, hc]
      | false => simp [formSubmit, hb, hs]

/-- C8 amended witness: with an explicit control prop and a failing 500
response, the state push mirrors the error flag. -/
theorem formSubmit_records_failure_witness :
    ((⟨true, none, true⟩ : FormProps).hasControlProp = true) ∧
      (formSubmit ⟨true, none, true⟩ true
          (FetchOutcome.response 500)).pushedSubmitFailState =
        (formSubmit ⟨true, none, true⟩ true (FetchOutcome.response 500)).hasError :=
  ⟨rfl, (formSubmit_records_failure ⟨true, none, true⟩ true
    (FetchOutcome.response 500) rfl).1⟩

end SolidHookForm
